import Mathlib

/-!
Verification of the core data model of this repository: the `Network`
class (`pyphi/network.py`) and the `SystemIrreducibilityAnalysis` result
type (`pyphi/models/big_phi.py`).

Probabilities are embedded as rationals (`ℚ`); two-dimensional numpy
arrays as `List (List ℚ)`; the canonical N-dimensional state-by-node
TPM of shape `[2]*N + [N]` as a binary tree (`NDTPM`) of depth `N`
whose leaf at path `(b₀, …, b_{N-1})` is the length-`N` row of node
ON-probabilities for the prior state with LOLI index `i = Σ bₖ·2^k`.

Helper modules of the repository that the two source files import
(`utils`, `convert`, `cmp`, `constants`) are not among the given source
files; the definitions standing in for them carry a doc comment starting
with `Modelled from the spec:` and follow the specification's wording.
-/

namespace PyPhi

/-- Modelled from the spec: the fixed numeric-equality tolerance
(`constants.EPSILON`).  The spec pins it only by its observable behaviour
(`1e-12` is below the tolerance, `0.05` is above); we use `10⁻⁶`, the
documented default precision of the library. -/
def EPSILON : ℚ := 1 / 1000000

/-- Modelled from the spec: `utils.eq`, numeric equality up to the fixed
tolerance — two values closer than `EPSILON` are treated as equal. -/
def tolEq (a b : ℚ) : Bool := |a - b| < EPSILON

/-- The canonical N-dimensional state-by-node TPM (shape `[2]*N + [N]`):
a depth-`N` binary tree branching on the successive state bits
`b₀, …, b_{N-1}` (least-significant index first), with the per-node
ON-probability row at each leaf. -/
inductive NDTPM
  | leaf (row : List ℚ)
  | branch (zero one : NDTPM)
deriving DecidableEq, Repr

/-- `tpm.shape[-1]`: the length of the (leftmost) leaf row, i.e. the
number of nodes `N` of a well-formed canonical TPM. -/
def NDTPM.width : NDTPM → ℕ
  | .leaf row => row.length
  | .branch zero _ => zero.width

/-- The rows at even 2-D LOLI indices (prior states with `b₀ = 0`). -/
def evenRows {α : Type} : List α → List α
  | [] => []
  | [x] => [x]
  | x :: _ :: rest => x :: evenRows rest

/-- The rows at odd 2-D LOLI indices (prior states with `b₀ = 1`). -/
def oddRows {α : Type} : List α → List α
  | [] => []
  | [_] => []
  | _ :: y :: rest => y :: oddRows rest

/-- Modelled from the spec: `convert.to_n_dimensional` — reshape a 2-D
`S×N` state-by-node matrix into the canonical `[2]*N + [N]` tensor, so
that tensor index `(b₀, …, b_{N-1})` corresponds exactly to row
`i = Σ bₖ·2^k` of the 2-D form.  Splitting on `b₀` separates the rows of
even and odd index; the tails re-enumerate the remaining bits. -/
def to_nd : ℕ → List (List ℚ) → NDTPM
  | 0, m => .leaf (m.headD [])
  | n + 1, m => .branch (to_nd n (evenRows m)) (to_nd n (oddRows m))

/-- One row of the state-by-state → state-by-node conversion: for a prior
state's distribution `row` over the `2^N` successor states, the marginal
ON-probability of node `n` is the total mass of the successor states
whose bit `n` is set. -/
def marginalizeRow (numNodes : ℕ) (row : List ℚ) : List ℚ :=
  (List.range numNodes).map fun n =>
    row.enum.foldl (fun acc jp => if Nat.testBit jp.1 n then acc + jp.2 else acc) 0

/-- Base-2 logarithm with explicit fuel (first argument), so that it is
structurally recursive: `log2fuel f n = ⌊log₂ n⌋` whenever `f ≥ n`. -/
def log2fuel : ℕ → ℕ → ℕ
  | 0, _ => 0
  | fuel + 1, n => if n < 2 then 0 else log2fuel fuel (n / 2) + 1

/-- `⌊log₂ n⌋`: the number of nodes `N` recovered from the number of
states `S = 2^N` of a state-by-state TPM. -/
def log2 (n : ℕ) : ℕ := log2fuel n n

/-- Modelled from the spec: `convert.state_by_state2state_by_node` —
normalizes an `S×S` state-by-state TPM into the canonical N-dimensional
state-by-node form: per-node marginal ON-probabilities are computed for
each prior state (the intermediate `S×N` matrix of §4.2) and the result
is reshaped to the canonical `[2]*N + [N]` tensor. -/
def state_by_state2state_by_node (m : List (List ℚ)) : NDTPM :=
  let numNodes := log2 m.length
  to_nd numNodes (m.map (marginalizeRow numNodes))

/-- Modelled from the spec: `utils.state_by_state` — a 2-D TPM is in
state-by-state form exactly when it is square (`S×S`); the state-by-node
2-D form `S×N` with `S = 2^N` is never square. -/
def state_by_state (m : List (List ℚ)) : Bool := m.length == (m.headD []).length

/-- A raw TPM as accepted by the `Network` constructor: either a 2-D
matrix (state-by-state `S×S` or state-by-node `S×N`) or an already
N-dimensional state-by-node tensor. -/
inductive RawTPM
  | twoD (m : List (List ℚ))
  | nD (t : NDTPM)
deriving DecidableEq, Repr

/-- The `Network.tpm` setter's conversion (network.py:142-155): a square
2-D TPM is taken as state-by-state and converted; any other input is
reshaped (for an already N-dimensional tensor the reshape is a no-op) —
every input ends in the one canonical N-dimensional state-by-node form. -/
def canonicalTPM : RawTPM → NDTPM
  | .twoD m =>
      if state_by_state m then state_by_state2state_by_node m
      else to_nd (m.headD []).length m
  | .nD t => t

/-- A numpy array as held by a `Network`: its content plus the
`flags.writeable` bit that the attribute setters clear. -/
structure NPArr (α : Type) where
  data : α
  writeable : Bool
deriving DecidableEq, Repr

/-- Modelled from the spec: in-place assignment into a numpy array —
rejected whenever the array's `writeable` flag has been cleared
("any attempt to mutate … in place must fail/be rejected"). -/
def NPArr.setItem {α : Type} (a : NPArr α) (v : α) : Except String (NPArr α) :=
  if a.writeable then .ok ⟨v, a.writeable⟩
  else .error "assignment destination is read-only"

/-- The `Network` class: canonical TPM, connectivity matrix and
perturbation vector (each frozen by its setter), plus the optional node
labels.  The purview cache is process-local memoisation and takes no
part in equality or hashing, so it is not represented. -/
structure Network where
  tpm : NPArr NDTPM
  connectivity_matrix : NPArr (List (List ℚ))
  perturb_vector : NPArr (List ℚ)
  node_labels : Option (List String)
deriving DecidableEq, Repr

/-- `Network.size`: the last dimension of the canonical TPM. -/
def Network.size (n : Network) : ℕ := n.tpm.data.width

/-- `Network.node_indices`: `tuple(range(self.size))`. -/
def Network.node_indices (n : Network) : List ℕ := List.range n.size

/-- The rational `1/2`, written in normal form so that it evaluates. -/
def half : ℚ := ⟨1, 2, by decide, by decide⟩

/-- The `Network` constructor (network.py:109-120): converts the TPM to
canonical form, defaults the connectivity matrix to all-ones and the
perturbation vector to all-`1/2`, and freezes all three arrays. -/
def Network.new (tpm : RawTPM) (cm : Option (List (List ℚ)))
    (node_labels : Option (List String)) (pv : Option (List ℚ)) : Network :=
  let t := canonicalTPM tpm
  let n := t.width
  { tpm := ⟨t, false⟩
    connectivity_matrix := ⟨cm.getD (List.replicate n (List.replicate n 1)), false⟩
    perturb_vector := ⟨pv.getD (List.replicate n half), false⟩
    node_labels := node_labels }

/-- An arbitrary Python object, as far as `Network.__eq__` can see it:
either a `Network` instance or anything else. -/
inductive PyObj
  | net (n : Network)
  | other (tag : ℕ)

/-- `Network.__eq__` (network.py:240-250): `np.array_equal` on TPM,
connectivity matrix and perturbation vector when the other object is a
`Network`, and `False` otherwise. -/
def Network.beq (a : Network) (o : PyObj) : Bool :=
  match o with
  | .net b =>
      a.tpm.data == b.tpm.data
        && a.connectivity_matrix.data == b.connectivity_matrix.data
        && a.perturb_vector.data == b.perturb_vector.data
  | .other _ => false

/-- `Network.__ne__` (network.py:252-253): `not self.__eq__(other)`. -/
def Network.bne (a : Network) (o : PyObj) : Bool := !(a.beq o)

/-- Modelled from the spec: `utils.np_hash` is a deterministic content
hash of an array; it is embedded as the content itself, which preserves
exactly the guarantee the spec states (hash derived from content,
independent of cache state). -/
def np_hash {α : Type} (a : NPArr α) : α := a.data

/-- `Network.__hash__` (network.py:255-257): the hash of the tuple of the
three content hashes. -/
def Network.hashv (n : Network) : NDTPM × List (List ℚ) × List ℚ :=
  (np_hash n.tpm, np_hash n.connectivity_matrix, np_hash n.perturb_vector)

/-- The serialized form of a `Network` (network.py:259-264): the fields
`tpm` (canonical N-D form), `cm` and `size`. -/
structure NetworkJSON where
  tpm : NDTPM
  cm : List (List ℚ)
  size : ℕ
deriving DecidableEq, Repr

/-- `Network.to_json` (network.py:259-264). -/
def Network.to_json (n : Network) : NetworkJSON :=
  ⟨n.tpm.data, n.connectivity_matrix.data, n.size⟩

/-- `from_json` (network.py:21-35): reconstruct a `Network` from the
serialized `tpm` and `cm` fields (`Network(tpm, connectivity_matrix=cm)`;
no perturbation vector or labels are carried). -/
def from_json (j : NetworkJSON) : Network :=
  Network.new (.nD j.tpm) (some j.cm) none none

/-- `constants.DIRECTIONS`: the two temporal directions, `'past'` (cause)
and `'future'` (effect). -/
inductive Direction
  | past
  | future
deriving DecidableEq, Repr

/-- Entry `(i, j)` of a connectivity matrix (0 when out of range). -/
def cmGet (cm : List (List ℚ)) (i j : ℕ) : ℚ := ((cm.getD i []).getD j 0)

/-- Modelled from the spec: `utils.block_reducible` — the bipartite
connectivity from `src` to `dst` over `cm` is block-reducible when some
nonempty partition of the two sides exists across which the adjacency is
entirely absent: `src = A₁ ⊎ A₂`, `dst = B₁ ⊎ B₂`, both `(A₁, B₁)` and
`(A₂, B₂)` jointly nonempty, with no edge from `A₁` into `B₂` nor from
`A₂` into `B₁` — the purview decomposes without numeric evaluation. -/
def block_reducible (cm : List (List ℚ)) (src dst : List ℕ) : Bool :=
  src.sublists.any fun a1 =>
    dst.sublists.any fun b1 =>
      let a2 := src.filter fun x => !(a1.contains x)
      let b2 := dst.filter fun x => !(b1.contains x)
      !(a1.isEmpty && b1.isEmpty) && !(a2.isEmpty && b2.isEmpty)
        && (a1.all fun a => b2.all fun b => cmGet cm a b == 0)
        && (a2.all fun a => b1.all fun b => cmGet cm a b == 0)

/-- `irreducible_purviews` (network.py:38-59): keeps the purviews that
are not trivially reducible, testing `purview → mechanism` for the past
direction and `mechanism → purview` for the future direction. -/
def irreducible_purviews (cm : List (List ℚ)) (direction : Direction)
    (mechanism : List ℕ) (purviews : List (List ℕ)) : List (List ℕ) :=
  purviews.filter fun purview =>
    !(match direction with
      | .past => block_reducible cm purview mechanism
      | .future => block_reducible cm mechanism purview)

/-- Modelled from the spec: `utils.powerset` — every subset of the node
indices, as ordered tuples, enumerated in ascending size then
lexicographic order. -/
def powerset (l : List ℕ) : List (List ℕ) :=
  (List.range (l.length + 1)).flatMap fun r => List.sublistsLen r l

/-- `Network._potential_purviews` (network.py:214-228): all purviews from
the powerset of the node indices that are not clearly reducible for the
mechanism.  (The `purview_cache` memoisation affects only how often this
is computed, not its value.) -/
def Network.potentialPurviews (n : Network) (direction : Direction)
    (mechanism : List ℕ) : List (List ℕ) :=
  irreducible_purviews n.connectivity_matrix.data direction mechanism
    (powerset n.node_indices)

/-- An element of the `nodes` argument of `generate_node_indices`:
a node label (Python `str`) or an index (Python `int`). -/
inductive PyNode
  | s (x : String)
  | i (x : ℤ)
deriving DecidableEq, Repr

/-- Is this element a Python `str`? (`isinstance(node, str)`) -/
def PyNode.isStr : PyNode → Bool
  | .s _ => true
  | .i _ => false

/-- The label of a string element (irrelevant default otherwise). -/
def PyNode.asStr : PyNode → String
  | .s x => x
  | .i _ => ""

/-- The numeric value of a decimal digit character, if it is one. -/
def digitVal (c : Char) : Option ℕ :=
  if 48 ≤ c.toNat && c.toNat ≤ 57 then some (c.toNat - 48) else none

/-- Left-to-right decimal accumulation over a digit string. -/
def decDigitsAux (acc : ℕ) : List Char → Option ℕ
  | [] => some acc
  | c :: cs =>
      match digitVal c with
      | some d => decDigitsAux (acc * 10 + d) cs
      | none => none

/-- A nonempty all-digit character list as a natural number. -/
def decNat : List Char → Option ℕ
  | [] => none
  | cs => decDigitsAux 0 cs

/-- Python's `int(...)` on a string: parse an optionally negated decimal
integer numeral, `None` (a `ValueError`) otherwise. -/
def strToInt (s : String) : Option ℤ :=
  match s.data with
  | '-' :: cs => (decNat cs).map fun n => -(n : ℤ)
  | cs => (decNat cs).map fun n => (n : ℤ)

/-- Python's `int(...)` applied to a node element: an `int` is returned
unchanged; a `str` is parsed as a decimal integer numeral and raises
`ValueError` otherwise. -/
def pyInt : PyNode → Except String ℤ
  | .i n => .ok n
  | .s x =>
      match strToInt x with
      | some n => .ok n
      | none => .error "ValueError: invalid literal for int"

/-- Element-wise application of a fallible function over a list, failing
at the first element that fails — a Python comprehension or `map` that
may raise. -/
def mapExcept {α β : Type} (f : α → Except String β) : List α → Except String (List β)
  | [] => .ok []
  | x :: xs =>
      match f x with
      | .error e => .error e
      | .ok y =>
          match mapExcept f xs with
          | .error e => .error e
          | .ok ys => .ok (y :: ys)

/-- The `dict(zip(node_labels, node_indices))` translation table of
`Network.labels2indices`. -/
def Network.labelMap (n : Network) : List (String × ℤ) :=
  (n.node_labels.getD []).zip (n.node_indices.map Int.ofNat)

/-- `Network.labels2indices` (network.py:195-198): translate labels
through `dict(zip(node_labels, node_indices))`; an unknown label raises
`KeyError`. -/
def Network.labels2indices (n : Network) (labels : List String) :
    Except String (List ℤ) :=
  mapExcept
    (fun l =>
      match n.labelMap.lookup l with
      | some i => .ok i
      | none => .error "KeyError")
    labels

/-- `tuple(sorted(set(indices)))`: the deduplicated, ascending-sorted
index tuple. -/
def sortedSet (l : List ℤ) : List ℤ := l.dedup.insertionSort (· ≤ ·)

/-- `Network.generate_node_indices` (network.py:200-209): an empty input
gives `()`; an all-string input is translated as labels; anything else
is coerced element-wise through `int`; the result is deduplicated and
sorted ascending. -/
def Network.generate_node_indices (n : Network) (nodes : List PyNode) :
    Except String (List ℤ) :=
  if nodes.length = 0 then .ok []
  else if nodes.all PyNode.isStr then
    (n.labels2indices (nodes.map PyNode.asStr)).map sortedSet
  else
    (mapExcept pyInt nodes).map sortedSet

/-- The `int` values of an all-index input sequence. -/
def intVals (nodes : List PyNode) : List ℤ :=
  nodes.filterMap fun x =>
    match x with
    | .i k => some k
    | .s _ => none

/-- The `Subsystem` collaborator, at the interface the SIA uses: its
node indices (`len(subsystem)` is their count) and the network it
belongs to. -/
structure Subsystem where
  node_indices : List ℕ
  network : Network
deriving Repr

/-- The `SystemIrreducibilityAnalysis` result, restricted to the fields
its ordering, truthiness and network accessor read: the |big_phi| value
and the analyzed subsystem. -/
structure SystemIrreducibilityAnalysis where
  phi : ℚ
  subsystem : Subsystem
deriving Repr

/-- `SystemIrreducibilityAnalysis.network` (big_phi.py:73-76). -/
def SystemIrreducibilityAnalysis.network (s : SystemIrreducibilityAnalysis) :
    Network := s.subsystem.network

/-- Strict lexicographic order on index tuples, as Python compares
tuples: a proper prefix is smaller. -/
def lexLt : List ℕ → List ℕ → Bool
  | [], [] => false
  | [], _ :: _ => true
  | _ :: _, [] => false
  | x :: xs, y :: ys => x < y || (x == y && lexLt xs ys)

/-- Modelled from the spec: the strict order induced by
`SystemIrreducibilityAnalysis.order_by` (big_phi.py:80-81) under the
`cmp.Orderable` mixin — compare by `phi` first, values closer than the
tolerance being tied; on a tie by subsystem size, the larger subsystem
ranking greater; on a further tie lexicographically by the subsystem's
node-index tuple. -/
def siaLt (a b : SystemIrreducibilityAnalysis) : Bool :=
  if tolEq a.phi b.phi then
    if a.subsystem.node_indices.length == b.subsystem.node_indices.length then
      lexLt a.subsystem.node_indices b.subsystem.node_indices
    else a.subsystem.node_indices.length < b.subsystem.node_indices.length
  else a.phi < b.phi

/-- Modelled from the spec: the comparison operator as guarded by
`unorderable_unless_eq = ['network']` (big_phi.py:78) — ordering two
SIAs whose networks are not content-equal is a usage error and raises;
otherwise the `order_by` comparison is returned. -/
def siaLtChecked (a b : SystemIrreducibilityAnalysis) : Except String Bool :=
  if a.network.beq (.net b.network) then .ok (siaLt a b)
  else .error "unorderable: networks are not equal"

/-- `SystemIrreducibilityAnalysis.__bool__` (big_phi.py:86-90):
`not utils.eq(self.phi, 0)`. -/
def siaBool (s : SystemIrreducibilityAnalysis) : Bool := !(tolEq s.phi 0)

/-! ### Concrete instances (used by witnesses and counterexamples) -/

/-- A 1-node network: the 2-D state-by-node TPM of the identity gate. -/
def exNet : Network := Network.new (.twoD [[0], [1]]) none none none

/-- A 1-node network with the opposite dynamics (a NOT gate), hence not
content-equal to `exNet`. -/
def exNetB : Network := Network.new (.twoD [[1], [0]]) none none none

/-- The rational `1/3`, written in normal form so that it evaluates. -/
def third : ℚ := ⟨1, 3, by decide, by decide⟩

/-- A 1-node network with a non-default perturbation vector. -/
def exNetPV : Network := Network.new (.twoD [[0], [1]]) none none (some [third])

/-- A 1-node network whose single node carries the numeric label `"2"`. -/
def exNetLabel : Network := Network.new (.twoD [[0], [1]]) none (some ["2"]) none

/-- An SIA over `exNet` with `phi = 1.4·EPSILON`, subsystem size 1. -/
def exSIA_A : SystemIrreducibilityAnalysis := ⟨14 / 10 * EPSILON, ⟨[0], exNet⟩⟩

/-- An SIA over `exNet` with `phi = 0.7·EPSILON`, subsystem size 2. -/
def exSIA_B : SystemIrreducibilityAnalysis := ⟨7 / 10 * EPSILON, ⟨[0, 1], exNet⟩⟩

/-- An SIA over `exNet` with `phi = 0`, subsystem size 3. -/
def exSIA_C : SystemIrreducibilityAnalysis := ⟨0, ⟨[0, 1, 2], exNet⟩⟩

/-- An SIA over `exNet` with `phi = 0`, subsystem size 1. -/
def exSIA_D : SystemIrreducibilityAnalysis := ⟨0, ⟨[0], exNet⟩⟩

/-- An SIA over `exNet` with `phi = 0`, subsystem size 2. -/
def exSIA_E : SystemIrreducibilityAnalysis := ⟨0, ⟨[0, 1], exNet⟩⟩

/-- An SIA over the different network `exNetB`. -/
def exSIA_G : SystemIrreducibilityAnalysis := ⟨0, ⟨[0], exNetB⟩⟩

/-- The 2×2 state-by-state TPM of the 1-node identity dynamics. -/
def exM : List (List ℚ) := [[1, 0], [0, 1]]

/-- The equivalent 2-D state-by-node TPM. -/
def exM2 : List (List ℚ) := [[0], [1]]

/-! ### Theorems -/

/-- Claim C3: an SIA's truthiness is `True` iff its `phi` clears the
fixed tolerance above zero; `phi = 0` and `phi = 10⁻¹²` (below the
tolerance) are falsy, `phi = 0.05` is truthy. -/
theorem sia_truthiness (q : ℚ) (sub : Subsystem) (hq : 0 ≤ q) :
    (siaBool ⟨q, sub⟩ = true ↔ EPSILON ≤ q)
      ∧ siaBool ⟨0, sub⟩ = false
      ∧ siaBool ⟨1 / 10 ^ 12, sub⟩ = false
      ∧ siaBool ⟨5 / 100, sub⟩ = true := by
  refine ⟨?_, ?_, ?_, ?_⟩
  · simp [siaBool, tolEq, abs_of_nonneg hq, not_lt]
  · simp [siaBool, tolEq, EPSILON]
  · simp [siaBool, tolEq]
    rw [abs_of_pos] <;> norm_num [EPSILON]
  · simp [siaBool, tolEq]
    rw [abs_of_pos] <;> norm_num [EPSILON]

/-- Witness for C3: the truthiness theorem instantiated at the concrete
value `phi = 0.05` over a concrete subsystem. -/
theorem sia_truthiness_witness :
    (siaBool ⟨5 / 100, ⟨[0], exNet⟩⟩ = true ↔ EPSILON ≤ 5 / 100)
      ∧ siaBool ⟨0, ⟨[0], exNet⟩⟩ = false
      ∧ siaBool ⟨1 / 10 ^ 12, ⟨[0], exNet⟩⟩ = false
      ∧ siaBool ⟨5 / 100, ⟨[0], exNet⟩⟩ = true :=
  sia_truthiness (5 / 100) ⟨[0], exNet⟩ (by norm_num)

/-- Claim C9: `Network.__eq__` returns `False` (rather than raising) on
any non-`Network` object, and `Network.__ne__` is always the boolean
negation of `Network.__eq__` on the same operands. -/
theorem network_eq_non_network (n : Network) (t : ℕ) (o : PyObj) :
    n.beq (.other t) = false ∧ n.bne o = !(n.beq o) :=
  ⟨rfl, rfl⟩

/-- Claim C10: `irreducible_purviews` returns a subsequence of its input
purview list — every element of the result occurs in the input, relative
order is preserved, and nothing is duplicated or added. -/
theorem irreducible_purviews_sublist (cm : List (List ℚ)) (d : Direction)
    (mech : List ℕ) (ps : List (List ℕ)) :
    (irreducible_purviews cm d mech ps).Sublist ps
      ∧ ∀ p ∈ irreducible_purviews cm d mech ps, p ∈ ps :=
  ⟨List.filter_sublist ps, fun _ hp => (List.filter_sublist ps).subset hp⟩

/-- Claim C7: after construction every `Network` holds its TPM,
connectivity matrix and perturbation vector with the writeable flag
cleared, so any in-place assignment into any of the three arrays is
rejected. -/
theorem network_arrays_frozen (tpm : RawTPM) (cm : Option (List (List ℚ)))
    (lab : Option (List String)) (pv : Option (List ℚ))
    (vt : NDTPM) (vc : List (List ℚ)) (vp : List ℚ) :
    ((Network.new tpm cm lab pv).tpm.writeable = false
        ∧ (Network.new tpm cm lab pv).connectivity_matrix.writeable = false
        ∧ (Network.new tpm cm lab pv).perturb_vector.writeable = false)
      ∧ (Network.new tpm cm lab pv).tpm.setItem vt
          = .error "assignment destination is read-only"
      ∧ (Network.new tpm cm lab pv).connectivity_matrix.setItem vc
          = .error "assignment destination is read-only"
      ∧ (Network.new tpm cm lab pv).perturb_vector.setItem vp
          = .error "assignment destination is read-only" :=
  ⟨⟨rfl, rfl, rfl⟩, rfl, rfl, rfl⟩

/-- Claim C6: ordering two SIAs whose networks are not content-equal is
a guarded precondition violation — the comparison raises instead of
returning an order — while SIAs with content-equal networks remain
orderable. -/
theorem sia_unorderable_unless_eq (a b : SystemIrreducibilityAnalysis) :
    (a.network.beq (.net b.network) = false →
        siaLtChecked a b = .error "unorderable: networks are not equal")
      ∧ (a.network.beq (.net b.network) = true →
        siaLtChecked a b = .ok (siaLt a b)) := by
  constructor <;> intro h <;> simp [siaLtChecked, h]

/-- Witness for C6: a concrete cross-network pair raises and a concrete
same-network pair is ordered. -/
theorem sia_unorderable_unless_eq_witness :
    siaLtChecked exSIA_D exSIA_G = .error "unorderable: networks are not equal"
      ∧ siaLtChecked exSIA_D exSIA_E = .ok (siaLt exSIA_D exSIA_E) :=
  ⟨(sia_unorderable_unless_eq exSIA_D exSIA_G).1 (by decide),
   (sia_unorderable_unless_eq exSIA_D exSIA_E).2 (by decide)⟩

/-- Claim C4: `_potential_purviews` returns exactly the purviews from
the powerset of the node indices that are not block-reducible over the
connectivity matrix, testing mechanism→purview for the future/effect
direction and purview→mechanism for the past/cause direction. -/
theorem potential_purviews_spec (n : Network) (mech p : List ℕ) :
    (p ∈ n.potentialPurviews .future mech ↔
        p ∈ powerset n.node_indices
          ∧ block_reducible n.connectivity_matrix.data mech p = false)
      ∧ (p ∈ n.potentialPurviews .past mech ↔
        p ∈ powerset n.node_indices
          ∧ block_reducible n.connectivity_matrix.data p mech = false) := by
  constructor <;> simp [Network.potentialPurviews, irreducible_purviews, List.mem_filter]

/-- `log2fuel` recovers the exponent of a power of two, given enough fuel. -/
theorem log2fuel_two_pow (N : ℕ) : ∀ fuel, N < fuel → log2fuel fuel (2 ^ N) = N := by
  induction N with
  | zero =>
      intro fuel h
      cases fuel with
      | zero => omega
      | succ f => simp [log2fuel]
  | succ n ih =>
      intro fuel h
      cases fuel with
      | zero => omega
      | succ f =>
          have h2 : ¬2 ^ (n + 1) < 2 := by
            have : 2 ^ 1 ≤ 2 ^ (n + 1) := Nat.pow_le_pow_right (by omega) (by omega)
            omega
          have hdiv : 2 ^ (n + 1) / 2 = 2 ^ n := by
            rw [Nat.pow_succ, Nat.mul_div_cancel _ (by omega)]
          simp [log2fuel, h2, hdiv, ih f (by omega)]

/-- `log2` recovers the node count from the state count `S = 2^N`. -/
theorem log2_two_pow (N : ℕ) : log2 (2 ^ N) = N :=
  log2fuel_two_pow N (2 ^ N) (Nat.lt_two_pow N)

/-- A well-formed `S×S` state-by-state TPM and its marginal state-by-node
matrix are both converted to the same canonical tensor. -/
theorem canonicalTPM_sbs_eq (N : ℕ) (m m2 : List (List ℚ))
    (hS : m.length = 2 ^ N)
    (hrows : ∀ row ∈ m, row.length = 2 ^ N)
    (hm2 : m2 = m.map (marginalizeRow N)) :
    canonicalTPM (.twoD m) = to_nd N m2 ∧ canonicalTPM (.twoD m2) = to_nd N m2 := by
  obtain ⟨r, rest, rfl⟩ : ∃ r rest, m = r :: rest := by
    cases m with
    | nil =>
        have := Nat.one_le_two_pow (n := N)
        simp at hS
        omega
    | cons r rest => exact ⟨r, rest, rfl⟩
  have hr : r.length = 2 ^ N := hrows r (by simp)
  have hsbs : state_by_state (r :: rest) = true := by
    simp [state_by_state, hS, hr]
  have hm2len : (marginalizeRow N r).length = N := by simp [marginalizeRow]
  have hlen2 : m2.length = 2 ^ N := by rw [hm2, List.length_map, hS]
  have hhead : (m2.headD []).length = N := by
    subst hm2
    simp [hm2len]
  have hnsbs : state_by_state m2 = false := by
    have hlt := Nat.lt_two_pow N
    simp only [state_by_state, hlen2, hhead, beq_eq_false_iff_ne, ne_eq]
    omega
  constructor
  · simp only [canonicalTPM, hsbs, if_true, state_by_state2state_by_node, hS, log2_two_pow]
    rw [← hm2]
  · have : canonicalTPM (.twoD m2)
        = if state_by_state m2 then state_by_state2state_by_node m2
          else to_nd (m2.headD []).length m2 := rfl
    rw [this, if_neg (by simp [hnsbs]), hhead]

/-- Constructing from two raw TPMs with the same canonical form (and the
same remaining arguments) yields equal, identically hashing networks. -/
theorem network_new_congr (r1 r2 : RawTPM) (cm : Option (List (List ℚ)))
    (lab : Option (List String)) (pv : Option (List ℚ))
    (h : canonicalTPM r1 = canonicalTPM r2) :
    (Network.new r1 cm lab pv).beq (.net (Network.new r2 cm lab pv)) = true
      ∧ (Network.new r1 cm lab pv).hashv = (Network.new r2 cm lab pv).hashv := by
  simp [Network.new, Network.beq, Network.hashv, np_hash, h]

/-- Claim C2: Networks built from equal TPM/CM/perturbation data compare
equal under `==` and hash identically, also across input forms — a
state-by-state TPM against its equivalent 2-D state-by-node form, and the
2-D form against the equivalent N-D form — because the constructor
converts every input TPM to the one canonical N-dimensional form. -/
theorem network_eq_across_forms (N : ℕ) (m m2 : List (List ℚ)) (t : NDTPM)
    (cm : Option (List (List ℚ))) (lab : Option (List String))
    (pv : Option (List ℚ))
    (hS : m.length = 2 ^ N)
    (hrows : ∀ row ∈ m, row.length = 2 ^ N)
    (hm2 : m2 = m.map (marginalizeRow N))
    (ht : t = to_nd N m2) :
    ((Network.new (.twoD m) cm lab pv).beq
        (.net (Network.new (.twoD m2) cm lab pv)) = true
      ∧ (Network.new (.twoD m2) cm lab pv).beq
          (.net (Network.new (.nD t) cm lab pv)) = true)
    ∧ ((Network.new (.twoD m) cm lab pv).hashv
          = (Network.new (.twoD m2) cm lab pv).hashv
      ∧ (Network.new (.twoD m2) cm lab pv).hashv
          = (Network.new (.nD t) cm lab pv).hashv) := by
  obtain ⟨h1, h2⟩ := canonicalTPM_sbs_eq N m m2 hS hrows hm2
  have e1 : canonicalTPM (.twoD m) = canonicalTPM (.twoD m2) := by rw [h1, h2]
  have e2 : canonicalTPM (.twoD m2) = canonicalTPM (.nD t) := by
    rw [h2, canonicalTPM, ht]
  obtain ⟨b1, hh1⟩ := network_new_congr (.twoD m) (.twoD m2) cm lab pv e1
  obtain ⟨b2, hh2⟩ := network_new_congr (.twoD m2) (.nD t) cm lab pv e2
  exact ⟨⟨b1, b2⟩, hh1, hh2⟩

/-- Witness for C2: the equality/hash theorem instantiated on the 1-node
identity dynamics given in all three input forms. -/
theorem network_eq_across_forms_witness :
    ((Network.new (.twoD exM) none none none).beq
        (.net (Network.new (.twoD exM2) none none none)) = true
      ∧ (Network.new (.twoD exM2) none none none).beq
          (.net (Network.new (.nD (.branch (.leaf [0]) (.leaf [1]))) none none none)) = true)
    ∧ ((Network.new (.twoD exM) none none none).hashv
          = (Network.new (.twoD exM2) none none none).hashv
      ∧ (Network.new (.twoD exM2) none none none).hashv
          = (Network.new (.nD (.branch (.leaf [0]) (.leaf [1]))) none none none).hashv) :=
  network_eq_across_forms 1 exM exM2 (.branch (.leaf [0]) (.leaf [1])) none none none
    (by decide) (by decide)
    (by simp [exM, exM2, marginalizeRow, List.enum, List.enumFrom]; decide)
    rfl

/-- Claim C5 (amended): serializing with `to_json` and reconstructing
from the serialized `tpm` and `cm` yields a content-equal Network for
every Network whose perturbation vector is the default all-`1/2` (the
serialized form carries no perturbation vector). -/
theorem network_json_roundtrip (tpm : RawTPM) (cm : Option (List (List ℚ)))
    (lab : Option (List String)) (pv : Option (List ℚ))
    (hpv : (Network.new tpm cm lab pv).perturb_vector.data
        = List.replicate (Network.new tpm cm lab pv).size half) :
    (from_json (Network.new tpm cm lab pv).to_json).beq
      (.net (Network.new tpm cm lab pv)) = true := by
  have hnd : ∀ t : NDTPM, canonicalTPM (.nD t) = t := fun _ => rfl
  simp [Network.new, Network.size] at hpv
  simp [from_json, Network.to_json, Network.new, Network.beq, Network.size,
    hnd, hpv]

/-- Witness for C5: the round trip on a concrete 1-node network with the
default perturbation vector. -/
theorem network_json_roundtrip_witness :
    (from_json exNet.to_json).beq (.net exNet) = true :=
  network_json_roundtrip (.twoD [[0], [1]]) none none none rfl

/-- Counterexample for C5 as stated: a Network with a non-default
perturbation vector does not round trip to a content-equal Network,
because `to_json` omits the perturbation vector and reconstruction
defaults it to all-`1/2`. -/
theorem network_json_roundtrip_counterexample :
    (from_json exNetPV.to_json).beq (.net exNetPV) = false := by decide

/-- `tuple(sorted(set(·)))` is strictly ascending (sorted, deduplicated). -/
theorem sortedSet_pairwise (l : List ℤ) : List.Pairwise (· < ·) (sortedSet l) := by
  have hs : List.Pairwise (· ≤ ·) (sortedSet l) := List.sorted_insertionSort _ _
  have hn : (sortedSet l).Nodup :=
    (List.perm_insertionSort _ l.dedup).nodup_iff.mpr (List.nodup_dedup l)
  exact (hs.and hn).imp fun h => lt_of_le_of_ne h.1 h.2

/-- `tuple(sorted(set(·)))` preserves membership. -/
theorem sortedSet_mem (l : List ℤ) (z : ℤ) : z ∈ sortedSet l ↔ z ∈ l :=
  (List.perm_insertionSort _ l.dedup).mem_iff.trans List.mem_dedup

/-- On an all-index input, elementwise `int` coercion succeeds with the
list of index values. -/
theorem mapExcept_pyInt_ints (nodes : List PyNode)
    (h : ∀ x ∈ nodes, x.isStr = false) :
    mapExcept pyInt nodes = .ok (intVals nodes) := by
  induction nodes with
  | nil => rfl
  | cons x xs ih =>
      cases x with
      | s str =>
          have hstr := h (.s str) (by simp)
          simp [PyNode.isStr] at hstr
      | i k =>
          have ih2 := ih fun y hy => h y (List.mem_cons_of_mem _ hy)
          simp [mapExcept, pyInt, intVals, List.filterMap_cons, ih2]

/-- An element on which `f` fails makes the elementwise map fail. -/
theorem mapExcept_error {α β : Type} (f : α → Except String β) (l : List α)
    (x : α) (hx : x ∈ l) (e : String) (hfx : f x = .error e) :
    ∃ e2, mapExcept f l = .error e2 := by
  induction l with
  | nil => cases hx
  | cons a as ih =>
      rcases List.mem_cons.mp hx with rfl | hmem
      · exact ⟨e, by simp [mapExcept, hfx]⟩
      · cases hfa : f a with
        | error e3 => exact ⟨e3, by simp [mapExcept, hfa]⟩
        | ok y =>
            obtain ⟨e2, h2⟩ := ih hmem
            exact ⟨e2, by simp [mapExcept, hfa, h2]⟩

/-- The values collected from an all-index input are exactly the indices
occurring in it. -/
theorem intVals_mem (nodes : List PyNode) (z : ℤ) :
    z ∈ intVals nodes ↔ PyNode.i z ∈ nodes := by
  simp only [intVals, List.mem_filterMap]
  constructor
  · rintro ⟨a, ha, hz⟩
    cases a with
    | s str => simp at hz
    | i k =>
        simp at hz
        exact hz ▸ ha
  · intro hz
    exact ⟨.i z, hz, rfl⟩

/-- Claim C8 (amended): on a non-empty input, `generate_node_indices`
returns the deduplicated ascending-sorted index tuple for an all-index
input, and for an all-label input translated through the label-to-index
map; it fails on an all-label input containing an unknown label, and on
an input mixing labels with indices when some string element is not a
decimal integer numeral (a mixed input whose strings are all numerals is
instead coerced through `int`). -/
theorem generate_node_indices_spec (net : Network) (nodes : List PyNode)
    (v : List ℤ) (hne : nodes ≠ []) :
    ((∀ x ∈ nodes, x.isStr = false) →
        net.generate_node_indices nodes = .ok (sortedSet (intVals nodes))
          ∧ List.Pairwise (· < ·) (sortedSet (intVals nodes))
          ∧ (∀ z : ℤ, z ∈ sortedSet (intVals nodes) ↔ PyNode.i z ∈ nodes))
    ∧ ((∀ x ∈ nodes, x.isStr = true) →
        net.labels2indices (nodes.map PyNode.asStr) = .ok v →
        net.generate_node_indices nodes = .ok (sortedSet v)
          ∧ List.Pairwise (· < ·) (sortedSet v)
          ∧ (∀ z : ℤ, z ∈ sortedSet v ↔ z ∈ v))
    ∧ ((∀ x ∈ nodes, x.isStr = true) →
        (∃ s, PyNode.s s ∈ nodes ∧ net.labelMap.lookup s = none) →
        ∃ e, net.generate_node_indices nodes = .error e)
    ∧ ((∃ x ∈ nodes, x.isStr = false) →
        (∃ s, PyNode.s s ∈ nodes ∧ strToInt s = none) →
        ∃ e, net.generate_node_indices nodes = .error e) := by
  have h0 : ¬nodes.length = 0 := by simpa using hne
  refine ⟨?_, ?_, ?_, ?_⟩
  · intro hall
    obtain ⟨x, hx⟩ := List.exists_mem_of_ne_nil nodes hne
    have hb : nodes.all PyNode.isStr = false :=
      List.all_eq_false.mpr ⟨x, hx, by simp [hall x hx]⟩
    simp only [Network.generate_node_indices, if_neg h0, hb, Bool.false_eq_true,
      if_false, mapExcept_pyInt_ints nodes hall]
    exact ⟨rfl, sortedSet_pairwise _,
      fun z => (sortedSet_mem _ z).trans (intVals_mem nodes z)⟩
  · intro hall hok
    have hb : nodes.all PyNode.isStr = true := List.all_eq_true.mpr hall
    simp only [Network.generate_node_indices, if_neg h0, hb, if_true, hok]
    exact ⟨rfl, sortedSet_pairwise _, fun z => sortedSet_mem _ z⟩
  · rintro hall ⟨s, hs, hnone⟩
    have hb : nodes.all PyNode.isStr = true := List.all_eq_true.mpr hall
    have hsmem : s ∈ nodes.map PyNode.asStr := List.mem_map.mpr ⟨.s s, hs, rfl⟩
    obtain ⟨e2, h2⟩ := mapExcept_error
      (fun l =>
        match net.labelMap.lookup l with
        | some i => .ok i
        | none => .error "KeyError")
      (nodes.map PyNode.asStr) s hsmem "KeyError" (by simp [hnone])
    refine ⟨e2, ?_⟩
    simp only [Network.generate_node_indices, if_neg h0, hb, if_true,
      Network.labels2indices, h2, Except.map]
  · rintro ⟨x, hx, hxf⟩ ⟨s, hs, hnone⟩
    have hb : nodes.all PyNode.isStr = false :=
      List.all_eq_false.mpr ⟨x, hx, by simp [hxf]⟩
    obtain ⟨e2, h2⟩ := mapExcept_error pyInt nodes (.s s) hs
      "ValueError: invalid literal for int" (by simp [pyInt, hnone])
    refine ⟨e2, ?_⟩
    simp only [Network.generate_node_indices, if_neg h0, hb, Bool.false_eq_true,
      if_false, h2, Except.map]

/-- Witness for C8: the amended theorem at a concrete network — an
all-index input is canonicalized, and a mixed input with the
non-numeral string `"Z"` fails. -/
theorem generate_node_indices_spec_witness :
    exNetLabel.generate_node_indices [.i 2, .i 0, .i 2]
        = .ok (sortedSet (intVals [.i 2, .i 0, .i 2]))
      ∧ (∃ e, exNetLabel.generate_node_indices [.s "Z", .i 1] = .error e) :=
  ⟨((generate_node_indices_spec exNetLabel [.i 2, .i 0, .i 2] []
      (by decide)).1 (by decide)).1,
   (generate_node_indices_spec exNetLabel [.s "Z", .i 1] [] (by decide)).2.2.2
     ⟨.i 1, by decide, rfl⟩ ⟨"Z", by decide, rfl⟩⟩

/-- Counterexample for C8 as stated: on a network whose node is labelled
by the numeric string `"2"`, the mixed input `["2", 1]` — a label mixed
with an index — does not fail: every element is coerced through `int`,
yielding `(1, 2)`. -/
theorem generate_node_indices_counterexample :
    exNetLabel.generate_node_indices [.s "2", .i 1] = .ok [1, 2] := by rfl

/-- The tolerance tie, spelled as two linear inequalities. -/
theorem tolEq_true_iff (a b : ℚ) :
    tolEq a b = true ↔ a - b < EPSILON ∧ b - a < EPSILON := by
  simp [tolEq, abs_sub_lt_iff]

/-- A decisive (non-tied) comparison, spelled as a gap of at least the
tolerance on one side. -/
theorem tolEq_false_iff (a b : ℚ) :
    tolEq a b = false ↔ EPSILON ≤ a - b ∨ EPSILON ≤ b - a := by
  rw [← Bool.not_eq_true, tolEq_true_iff]
  rw [not_and_or, not_lt, not_lt]

/-- The tolerance tie is symmetric. -/
theorem tolEq_comm (a b : ℚ) : tolEq a b = tolEq b a := by
  simp [tolEq, abs_sub_comm]

/-- Strict lexicographic tuple order is transitive. -/
theorem lexLt_trans (xs : List ℕ) : ∀ ys zs, lexLt xs ys = true →
    lexLt ys zs = true → lexLt xs zs = true := by
  induction xs with
  | nil =>
      intro ys zs h1 h2
      cases ys with
      | nil => simp [lexLt] at h1
      | cons y ys2 =>
          cases zs with
          | nil => simp [lexLt] at h2
          | cons z zs2 => simp [lexLt]
  | cons x xs2 ih =>
      intro ys zs h1 h2
      cases ys with
      | nil => simp [lexLt] at h1
      | cons y ys2 =>
          cases zs with
          | nil => simp [lexLt] at h2
          | cons z zs2 =>
              simp only [lexLt, Bool.or_eq_true, Bool.and_eq_true,
                decide_eq_true_eq, beq_iff_eq] at h1 h2 ⊢
              rcases h1 with h1a | ⟨hxy, h1b⟩ <;> rcases h2 with h2a | ⟨hyz, h2b⟩
              · exact Or.inl (by omega)
              · exact Or.inl (by omega)
              · exact Or.inl (by omega)
              · exact Or.inr ⟨by omega, ih ys2 zs2 h1b h2b⟩

/-- Strict lexicographic tuple order is asymmetric. -/
theorem lexLt_asymm (xs : List ℕ) : ∀ ys,
    ¬(lexLt xs ys = true ∧ lexLt ys xs = true) := by
  induction xs with
  | nil =>
      intro ys
      cases ys <;> simp [lexLt]
  | cons x xs2 ih =>
      intro ys
      cases ys with
      | nil => simp [lexLt]
      | cons y ys2 =>
          rintro ⟨h1, h2⟩
          simp only [lexLt, Bool.or_eq_true, Bool.and_eq_true,
            decide_eq_true_eq, beq_iff_eq] at h1 h2
          rcases h1 with h1a | ⟨hxy, h1b⟩ <;> rcases h2 with h2a | ⟨hyx, h2b⟩
          · omega
          · omega
          · omega
          · exact ih ys2 ⟨h1b, h2b⟩

/-- Content equality of networks is symmetric. -/
theorem network_beq_symm (m n : Network) (h : m.beq (.net n) = true) :
    n.beq (.net m) = true := by
  simp only [Network.beq, Bool.and_eq_true, beq_iff_eq] at h ⊢
  exact ⟨⟨h.1.1.symm, h.1.2.symm⟩, h.2.symm⟩

/-- Under an order guard that passed, the checked comparison is the
`order_by` comparison. -/
theorem siaLtChecked_eq (x y : SystemIrreducibilityAnalysis)
    (h : x.network.beq (.net y.network) = true) :
    siaLtChecked x y = .ok (siaLt x y) := by
  simp [siaLtChecked, h]

/-- On a phi tie, the SIA order compares subsystem size, then the
node-index tuple lexicographically. -/
theorem siaLt_tie_iff (x y : SystemIrreducibilityAnalysis)
    (h : tolEq x.phi y.phi = true) :
    siaLt x y = true ↔
      (x.subsystem.node_indices.length < y.subsystem.node_indices.length
        ∨ (x.subsystem.node_indices.length = y.subsystem.node_indices.length
            ∧ lexLt x.subsystem.node_indices y.subsystem.node_indices = true)) := by
  unfold siaLt
  rw [if_pos h]
  by_cases hl : x.subsystem.node_indices.length = y.subsystem.node_indices.length
  · rw [if_pos (by simpa using hl)]
    constructor
    · intro hlex
      exact Or.inr ⟨hl, hlex⟩
    · rintro (hlt | ⟨_, hlex⟩)
      · omega
      · exact hlex
  · rw [if_neg (by simpa using hl)]
    simp only [decide_eq_true_eq]
    constructor
    · intro hlt
      exact Or.inl hlt
    · rintro (hlt | ⟨heq, _⟩)
      · exact hlt
      · exact absurd heq hl

/-- On a decisive phi gap, the SIA order compares phi. -/
theorem siaLt_decisive (x y : SystemIrreducibilityAnalysis)
    (h : tolEq x.phi y.phi = false) :
    siaLt x y = decide (x.phi < y.phi) := by
  unfold siaLt
  rw [if_neg (by simp [h])]

/-- Claim C1 (amended): over content-equal networks the SIA order is
asymmetric (never both `a < b` and `b < a`), and it is transitive on
every triple on which the phi-tolerance tie is itself transitive; it is
not transitive in general (see the counterexample), because the
tolerance tie is not an equivalence. -/
theorem sia_order_trans_antisymm (a b c : SystemIrreducibilityAnalysis)
    (hab : a.network.beq (.net b.network) = true)
    (hbc : b.network.beq (.net c.network) = true)
    (hac : a.network.beq (.net c.network) = true)
    (tABC : tolEq a.phi b.phi = true → tolEq b.phi c.phi = true →
      tolEq a.phi c.phi = true)
    (tACB : tolEq a.phi c.phi = true → tolEq c.phi b.phi = true →
      tolEq a.phi b.phi = true)
    (tBAC : tolEq b.phi a.phi = true → tolEq a.phi c.phi = true →
      tolEq b.phi c.phi = true) :
    (siaLtChecked a b = .ok true → siaLtChecked b c = .ok true →
        siaLtChecked a c = .ok true)
      ∧ ¬(siaLtChecked a b = .ok true ∧ siaLtChecked b a = .ok true) := by
  have hba : b.network.beq (.net a.network) = true := network_beq_symm _ _ hab
  constructor
  · intro h1 h2
    rw [siaLtChecked_eq a b hab] at h1
    rw [siaLtChecked_eq b c hbc] at h2
    rw [siaLtChecked_eq a c hac]
    simp only [Except.ok.injEq] at h1 h2 ⊢
    cases e1 : tolEq a.phi b.phi <;> cases e2 : tolEq b.phi c.phi
    · -- both gaps decisive
      rw [siaLt_decisive a b e1] at h1
      rw [siaLt_decisive b c e2] at h2
      simp only [decide_eq_true_eq] at h1 h2
      have g1 := (tolEq_false_iff _ _).mp e1
      have g2 := (tolEq_false_iff _ _).mp e2
      have e3 : tolEq a.phi c.phi = false := by
        rw [tolEq_false_iff]
        right
        rcases g1 with g1 | g1 <;> rcases g2 with g2 | g2 <;> linarith
      rw [siaLt_decisive a c e3]
      simp only [decide_eq_true_eq]
      linarith
    · -- a to b decisive, b to c tied
      rw [siaLt_decisive a b e1] at h1
      simp only [decide_eq_true_eq] at h1
      have g1 := (tolEq_false_iff _ _).mp e1
      have g2 := (tolEq_true_iff _ _).mp e2
      have e3 : tolEq a.phi c.phi = false := by
        cases e3 : tolEq a.phi c.phi
        · rfl
        · have e2' : tolEq c.phi b.phi = true := by
            rw [tolEq_comm]
            exact e2
          have hcon := tACB e3 e2'
          rw [hcon] at e1
          cases e1
      rw [siaLt_decisive a c e3]
      simp only [decide_eq_true_eq]
      rcases g1 with g1 | g1 <;> linarith [g2.1, g2.2]
    · -- a to b tied, b to c decisive
      rw [siaLt_decisive b c e2] at h2
      simp only [decide_eq_true_eq] at h2
      have g1 := (tolEq_true_iff _ _).mp e1
      have g2 := (tolEq_false_iff _ _).mp e2
      have e3 : tolEq a.phi c.phi = false := by
        cases e3 : tolEq a.phi c.phi
        · rfl
        · have e1' : tolEq b.phi a.phi = true := by
            rw [tolEq_comm]
            exact e1
          have hcon := tBAC e1' e3
          rw [hcon] at e2
          cases e2
      rw [siaLt_decisive a c e3]
      simp only [decide_eq_true_eq]
      rcases g2 with g2 | g2 <;> linarith [g1.1, g1.2]
    · -- both tied: the tie-transitivity hypothesis applies
      have e3 := tABC e1 e2
      rw [siaLt_tie_iff a b e1] at h1
      rw [siaLt_tie_iff b c e2] at h2
      rw [siaLt_tie_iff a c e3]
      rcases h1 with h1 | ⟨h1e, h1l⟩ <;> rcases h2 with h2 | ⟨h2e, h2l⟩
      · exact Or.inl (by omega)
      · exact Or.inl (by omega)
      · exact Or.inl (by omega)
      · exact Or.inr ⟨by omega, lexLt_trans _ _ _ h1l h2l⟩
  · rintro ⟨h1, h2⟩
    rw [siaLtChecked_eq a b hab] at h1
    rw [siaLtChecked_eq b a hba] at h2
    simp only [Except.ok.injEq] at h1 h2
    cases e1 : tolEq a.phi b.phi
    · have e1' : tolEq b.phi a.phi = false := by
        rw [tolEq_comm]
        exact e1
      rw [siaLt_decisive a b e1] at h1
      rw [siaLt_decisive b a e1'] at h2
      simp only [decide_eq_true_eq] at h1 h2
      linarith
    · have e1' : tolEq b.phi a.phi = true := by
        rw [tolEq_comm]
        exact e1
      rw [siaLt_tie_iff a b e1] at h1
      rw [siaLt_tie_iff b a e1'] at h2
      rcases h1 with h1 | ⟨h1e, h1l⟩ <;> rcases h2 with h2 | ⟨h2e, h2l⟩
      · omega
      · omega
      · omega
      · exact lexLt_asymm _ _ ⟨h1l, h2l⟩

/-- Witness for C1: transitivity and asymmetry at three concrete SIAs
over one network whose phi values are all exactly zero (so the tie is
transitive on them). -/
theorem sia_order_trans_antisymm_witness :
    ((siaLtChecked exSIA_D exSIA_E = .ok true →
        siaLtChecked exSIA_E exSIA_C = .ok true →
        siaLtChecked exSIA_D exSIA_C = .ok true)
      ∧ ¬(siaLtChecked exSIA_D exSIA_E = .ok true
            ∧ siaLtChecked exSIA_E exSIA_D = .ok true)) :=
  sia_order_trans_antisymm exSIA_D exSIA_E exSIA_C
    (by decide) (by decide) (by decide)
    (fun _ h => h) (fun _ h => h) (fun _ h => h)

/-- Counterexample for C1 as stated: three SIAs over one network on
which the order is not transitive — `A < B` and `B < C` by the
phi-tie/size rule, yet `A < C` fails because the phi gap from `A` to `C`
exceeds the tolerance. -/
theorem sia_order_not_transitive :
    siaLtChecked exSIA_A exSIA_B = .ok true
      ∧ siaLtChecked exSIA_B exSIA_C = .ok true
      ∧ siaLtChecked exSIA_A exSIA_C = .ok false := by
  have hnet : exNet.beq (.net exNet) = true := by decide
  have t1 : tolEq (14 / 10 * EPSILON) (7 / 10 * EPSILON) = true := by
    rw [tolEq_true_iff]
    constructor <;> norm_num [EPSILON]
  have t2 : tolEq (7 / 10 * EPSILON) 0 = true := by
    rw [tolEq_true_iff]
    constructor <;> norm_num [EPSILON]
  have t3 : tolEq (14 / 10 * EPSILON) 0 = false := by
    rw [tolEq_false_iff]
    left
    norm_num [EPSILON]
  refine ⟨?_, ?_, ?_⟩
  · rw [siaLtChecked_eq exSIA_A exSIA_B (by decide)]
    simp only [Except.ok.injEq]
    exact (siaLt_tie_iff exSIA_A exSIA_B t1).mpr (Or.inl (by decide))
  · rw [siaLtChecked_eq exSIA_B exSIA_C (by decide)]
    simp only [Except.ok.injEq]
    exact (siaLt_tie_iff exSIA_B exSIA_C t2).mpr (Or.inl (by decide))
  · rw [siaLtChecked_eq exSIA_A exSIA_C (by decide)]
    simp only [Except.ok.injEq]
    rw [siaLt_decisive exSIA_A exSIA_C t3]
    simp only [decide_eq_false_iff_not, not_lt]
    show (0 : ℚ) ≤ 14 / 10 * EPSILON
    norm_num [EPSILON]

end PyPhi
